import Mathlib

/-!
Verification development for the helm publishing plugin.

We shallow-embed the program's text-processing core and its repository
publisher over `List Char` strings, with external processes and the network
represented by explicit effect traces and result oracles.

The version patcher (`UpdateChartVersion` in chart.go) manipulates the
manifest text with Go's regexp package, patterns `(?m)^version:\s*.+$` and
`(?m)^appVersion:\s*.+$`, and `Regexp.ReplaceAll`.  We embed the matching
semantics of exactly this pattern shape (a literal key at a line start,
then `\s*.+$`) with the leftmost-first greedy semantics of Go's regexp:
`\s` is `[\t\n\f\r ]` and so also matches newlines, `.` matches any
character except newline, and `$` in multiline mode matches at the end of
the text or before a newline.  `ReplaceAll` additionally performs
`$`-expansion of the replacement text, which we embed as `expand`.
-/

namespace PluginHelm

/-- Program strings are lists of characters. -/
abbrev Str := List Char

/-- Go regexp's `\s` character class: `[\t\n\f\r ]` (no vertical tab). -/
def isGoSpace (c : Char) : Bool :=
  c = ' ' ∨ c = '\t' ∨ c = '\n' ∨ c = '\x0c' ∨ c = '\r'

/-- Index of the last character of `t` that is not a newline. -/
def lastNonNL : Str → Option Nat
  | [] => none
  | c :: r =>
    match lastNonNL r with
    | some k => some (k + 1)
    | none => if c ≠ '\n' then some 0 else none

/-- Length of the match of `\s*.+$` against a prefix of `t`, following the
leftmost-first greedy semantics of Go's regexp: `\s*` first consumes the
maximal whitespace run (which may include newlines); if that leaves at
least one character, `.+` consumes the maximal run of non-newline
characters from there and `$` holds; otherwise the star backtracks to the
last position from which `.` can still match a character, which is the
last non-newline character of the all-whitespace text. -/
def matchRest (t : Str) : Option Nat :=
  if (t.takeWhile isGoSpace).length < t.length then
    some ((t.takeWhile isGoSpace).length +
      ((t.drop ((t.takeWhile isGoSpace).length)).takeWhile (fun c => c ≠ '\n')).length)
  else
    match lastNonNL t with
    | some k => some (k + 1)
    | none => none

/-- Length of the match of the pattern `^key\s*.+$` attempted at the start
of `t` (a position where the multiline `^` holds). -/
def matchKeyAt (key t : Str) : Option Nat :=
  if key.isPrefixOf t then (matchRest (t.drop key.length)).map (fun m => key.length + m)
  else none

/-- Whether a single line (no newline inside), taken alone, is matched by
the anchored pattern `^key\s*.+$`. -/
def lineFullMatch (key l : Str) : Bool :=
  matchKeyAt key l = some l.length

/-- Word characters accepted in a `$name` reference by Go's
`regexp.Regexp.Expand` (`unicode.IsLetter`, `unicode.IsDigit` or `_`;
we model the ASCII part, which is all this development instantiates). -/
def isWordChar (c : Char) : Bool :=
  c.isAlpha ∨ c.isDigit ∨ c = '_'

/-- Go `regexp`'s `extract`: parse a `name` or `{name}` group reference
after a `$`, returning the name and the rest of the template. -/
def extractRef (s : Str) : Option (Str × Str) :=
  if s.head? = some '{' then
    if s.tail.takeWhile isWordChar = [] then none
    else
      match s.tail.drop ((s.tail.takeWhile isWordChar).length) with
      | '}' :: rest => some (s.tail.takeWhile isWordChar, rest)
      | _ => none
  else
    if s.takeWhile isWordChar = [] then none
    else some (s.takeWhile isWordChar, s.drop ((s.takeWhile isWordChar).length))

theorem extractRef_le {s nm rest : Str} (h : extractRef s = some (nm, rest)) :
    rest.length ≤ s.length := by
  unfold extractRef at h
  split at h
  · split at h
    · exact absurd h (by simp)
    · split at h
      · next heq =>
        simp only [Option.some.injEq, Prod.mk.injEq] at h
        obtain ⟨h1, h2⟩ := h
        have hlen := congrArg List.length heq
        simp only [List.length_cons, List.length_drop] at hlen
        have htail : s.tail.length ≤ s.length := by cases s <;> simp
        rw [← h2]
        omega
      · exact absurd h (by simp)
  · split at h
    · exact absurd h (by simp)
    · simp only [Option.some.injEq, Prod.mk.injEq] at h
      obtain ⟨h1, h2⟩ := h
      rw [← h2]
      simp [Nat.sub_le]

/-- Go `Regexp.expand` applied to a replacement template, for a pattern
with no capture groups (only group 0, the whole match, exists): `$$` is a
literal `$`; `$0` (also `${0}`) expands to the whole match; any other
well-formed reference expands to the empty string (out-of-range group or
unknown name); a malformed `$` is kept literally. -/
def expand (matched : Str) : Str → Str
  | [] => []
  | c :: r =>
    if c = '$' then
      if r.head? = some '$' then '$' :: expand matched r.tail
      else
        match h : extractRef r with
        | some (nm, rest) => (if nm = ['0'] then matched else []) ++ expand matched rest
        | none => '$' :: expand matched r
    else c :: expand matched r
termination_by t => t.length
decreasing_by
  · cases r <;> simp_all <;> omega
  · have := extractRef_le h
    simp only [List.length_cons]
    omega
  · simp only [List.length_cons]; omega
  · simp only [List.length_cons]; omega

theorem expand_of_no_dollar {matched t : Str} (h : '$' ∉ t) : expand matched t = t := by
  induction t with
  | nil => simp [expand]
  | cons c r ih =>
    have hc : ¬ (c = '$') := fun hcc => h (hcc ▸ List.mem_cons_self c r)
    rw [expand, if_neg hc]
    exact congrArg (c :: ·) (ih (fun hm => h (List.mem_cons_of_mem c hm)))

theorem length_takeWhile_le' (p : Char → Bool) (l : Str) :
    (l.takeWhile p).length ≤ l.length := by
  induction l with
  | nil => simp
  | cons a l ih =>
    cases hpa : p a <;> simp [List.takeWhile_cons, hpa] <;> omega

theorem drop_length_takeWhile (p : Char → Bool) (l : Str) :
    l.drop ((l.takeWhile p).length) = l.dropWhile p := by
  induction l with
  | nil => simp
  | cons a l ih =>
    cases hpa : p a <;> simp [List.takeWhile_cons, List.dropWhile_cons, hpa, ih]

theorem lastNonNL_lt {t : Str} {k : Nat} (h : lastNonNL t = some k) : k < t.length := by
  induction t generalizing k with
  | nil => simp [lastNonNL] at h
  | cons c r ih =>
    rw [lastNonNL] at h
    split at h
    · next hk =>
      injection h with h'
      have := ih hk
      simp only [List.length_cons]
      omega
    · split at h
      · injection h with h'
        simp [← h']
      · exact absurd h (by simp)

theorem dropWhile_head_false {α : Type} {p : α → Bool} {c : α} {cs t : List α}
    (hd : t.dropWhile p = c :: cs) : p c = false := by
  induction t with
  | nil => simp at hd
  | cons a r ih =>
    rw [List.dropWhile_cons] at hd
    split at hd
    · exact ih hd
    · next hpa =>
      injection hd with h1 h2
      subst h1
      simpa using hpa

theorem matchRest_bounds {t : Str} {m : Nat} (h : matchRest t = some m) :
    1 ≤ m ∧ m ≤ t.length := by
  unfold matchRest at h
  by_cases hq : (t.takeWhile isGoSpace).length < t.length
  · rw [if_pos hq] at h
    injection h with h'
    subst h'
    have hdw : t.drop ((t.takeWhile isGoSpace).length) = t.dropWhile isGoSpace :=
      drop_length_takeWhile isGoSpace t
    constructor
    · rcases hd : t.dropWhile isGoSpace with _ | ⟨c, cs⟩
      · exfalso
        have hlen := congrArg List.length (List.takeWhile_append_dropWhile (p := isGoSpace) (l := t))
        rw [hd] at hlen
        simp at hlen
        omega
      · have hc : isGoSpace c = false := dropWhile_head_false hd
        have hcnl : ¬ (c = '\n') := by
          intro hcc
          rw [hcc] at hc
          simp [isGoSpace] at hc
        have hdc : t.drop ((t.takeWhile isGoSpace).length) = c :: cs := hdw.trans hd
        have hpos : 1 ≤ ((t.drop ((t.takeWhile isGoSpace).length)).takeWhile
            (fun c => decide (c ≠ '\n'))).length := by
          simp only [hdc, List.takeWhile_cons]
          simp [hcnl]
        omega
    · have hle : (((t.drop ((t.takeWhile isGoSpace).length)).takeWhile (fun c => c ≠ '\n')).length) ≤
          (t.drop ((t.takeWhile isGoSpace).length)).length :=
        length_takeWhile_le' _ _
      have : (t.drop ((t.takeWhile isGoSpace).length)).length = t.length - (t.takeWhile isGoSpace).length := by
        simp
      omega
  · rw [if_neg hq] at h
    rcases hk : lastNonNL t with _ | k
    · rw [hk] at h
      exact absurd h (by simp)
    · rw [hk] at h
      injection h with h'
      have := lastNonNL_lt hk
      omega

theorem matchKeyAt_bounds {key t : Str} {m : Nat} (h : matchKeyAt key t = some m) :
    1 ≤ m ∧ m ≤ t.length := by
  unfold matchKeyAt at h
  split at h
  · next hpre =>
    rcases Option.map_eq_some'.mp h with ⟨m', hm', rfl⟩
    have hb := matchRest_bounds hm'
    have hkle : key.length ≤ t.length :=
      (List.isPrefixOf_iff_prefix.mp hpre).length_le
    have : (t.drop key.length).length = t.length - key.length := by simp
    omega
  · exact absurd h (by simp)

/-- One pass of Go's `Regexp.ReplaceAll` for the pattern `^key\s*.+$` over
the text: scan left to right; at every position where the multiline `^`
holds, attempt the match; on success emit the expanded replacement and
resume right after the matched text (which is never inside a line start);
otherwise copy one character. -/
def replAux (key repl : Str) : Str → Bool → Str
  | [], _ => []
  | c :: r, atLS =>
    if hm : atLS = true ∧ (matchKeyAt key (c :: r)).isSome = true then
      let m := (matchKeyAt key (c :: r)).get hm.2
      expand ((c :: r).take m) repl ++ replAux key repl ((c :: r).drop m) false
    else
      c :: replAux key repl r (c == '\n')
termination_by t _ => t.length
decreasing_by
  · have hsome : matchKeyAt key (c :: r) = some ((matchKeyAt key (c :: r)).get hm.2) :=
      (Option.some_get hm.2).symm
    have hb := matchKeyAt_bounds hsome
    simp only [List.length_drop, List.length_cons]
    omega
  · simp only [List.length_cons]; omega

/-- `Regexp.ReplaceAll` of the pattern `(?m)^key\s*.+$` with replacement
template `repl` (the scan starts at the beginning of the text, a line
start). -/
def replaceAllKey (key repl s : Str) : Str :=
  replAux key repl s true

/-- `Regexp.Match` for the pattern `(?m)^key\s*.+$`: whether a match
starts at some position of the text where `^` holds. -/
def hasKeyMatch (key : Str) : Str → Bool → Bool
  | [], atLS => atLS && (matchKeyAt key []).isSome
  | c :: r, atLS => (atLS && (matchKeyAt key (c :: r)).isSome) || hasKeyMatch key r (c == '\n')

/-- `patternMatch key data` embeds `regexp.MustCompile("(?m)^key\\s*.+$").Match(data)`. -/
def patternMatch (key s : Str) : Bool :=
  hasKeyMatch key s true

/-- Hex digit used by `strconv` (lower case). -/
def hexDigit (n : Nat) : Char :=
  if n < 10 then Char.ofNat ('0'.toNat + n) else Char.ofNat ('a'.toNat + (n - 10))

/-- Quoting of one character as done by `strconv.Quote` (the `%q` verb):
`"` and `\` are backslash-escaped, printable ASCII is kept, the
conventional control escapes `\a \b \f \n \r \t \v` apply, other bytes
below 0x80 become `\xHH`.  For characters at and above 0x80 `strconv`
consults the Unicode printability tables; the development only ever
instantiates ASCII values, so that branch is approximated by keeping the
character. -/
def goQuoteChar (c : Char) : Str :=
  if c = '"' ∨ c = '\\' then ['\\', c]
  else if 0x20 ≤ c.toNat ∧ c.toNat < 0x7f then [c]
  else if c = '\x07' then ['\\', 'a']
  else if c = '\x08' then ['\\', 'b']
  else if c = '\x0c' then ['\\', 'f']
  else if c = '\n' then ['\\', 'n']
  else if c = '\r' then ['\\', 'r']
  else if c = '\t' then ['\\', 't']
  else if c = '\x0b' then ['\\', 'v']
  else if c.toNat < 0x80 then ['\\', 'x', hexDigit (c.toNat / 16), hexDigit (c.toNat % 16)]
  else [c]

/-- `strconv.Quote` / the `%q` verb of `fmt.Sprintf` on a string. -/
def goQuote (s : Str) : Str :=
  '"' :: s.foldr (fun c acc => goQuoteChar c ++ acc) ['"']

/-- The `version:` key of the pattern `(?m)^version:\s*.+$`. -/
def vkey : Str := ("version:").data

/-- The `appVersion:` key of the pattern `(?m)^appVersion:\s*.+$`. -/
def akey : Str := ("appVersion:").data

/-- The text transformation performed by `UpdateChartVersion` (chart.go) on
the bytes of Chart.yaml: require a match of `(?m)^version:\s*.+$`, replace
all its matches by `version: <version>`; then, if a secondary version is
supplied, either rewrite an existing `appVersion` line to
`appVersion: <quoted>` or splice `\nappVersion: <quoted>` onto the version
line. -/
def UpdateChartVersion (data version appVersion : Str) : Except Str Str :=
  if ¬ patternMatch vkey data then
    .error (("version field not found in Chart.yaml").data)
  else if appVersion ≠ [] then
    if patternMatch akey (replaceAllKey vkey (("version: ").data ++ version) data) then
      .ok (replaceAllKey akey (("appVersion: ").data ++ goQuote appVersion)
        (replaceAllKey vkey (("version: ").data ++ version) data))
    else
      .ok (replaceAllKey vkey
        ((("version: ").data ++ version) ++ '\n' :: (("appVersion: ").data ++ goQuote appVersion))
        (replaceAllKey vkey (("version: ").data ++ version) data))
  else
    .ok (replaceAllKey vkey (("version: ").data ++ version) data)

/-- `UpdateChartVersion` including the final write-back: returns the file
content after the call together with the error, the content being
untouched whenever an error is returned (the write only happens on the
success path). -/
def updateChartVersionFile (content version appVersion : Str) : Str × Option Str :=
  match UpdateChartVersion content version appVersion with
  | .ok d => (d, none)
  | .error e => (content, some e)

/-- `strings.Split(s, "\n")`. -/
def splitOnNL : Str → List Str
  | [] => [[]]
  | c :: r =>
    match splitOnNL r with
    | [] => [[c]]
    | l :: ls => if c = '\n' then [] :: l :: ls else (c :: l) :: ls

/-- Inverse image of `splitOnNL`: join lines with newlines. -/
def joinLines : List Str → Str
  | [] => []
  | [l] => l
  | l :: ls => l ++ '\n' :: joinLines ls

/-- `unicode.IsSpace`, the class trimmed by `strings.TrimSpace`. -/
def isUnicodeSpace (c : Char) : Bool :=
  c = ' ' ∨ c = '\t' ∨ c = '\n' ∨ c = '\x0b' ∨ c = '\x0c' ∨ c = '\r' ∨
  c.toNat = 0x85 ∨ c.toNat = 0xA0 ∨ c.toNat = 0x1680 ∨
  (0x2000 ≤ c.toNat ∧ c.toNat ≤ 0x200A) ∨ c.toNat = 0x2028 ∨ c.toNat = 0x2029 ∨
  c.toNat = 0x202F ∨ c.toNat = 0x205F ∨ c.toNat = 0x3000

/-- `strings.TrimSpace`. -/
def trimSpace (s : Str) : Str :=
  ((s.dropWhile isUnicodeSpace).reverse.dropWhile isUnicodeSpace).reverse

/-- `strings.Index(s, pat)`: index of the first occurrence of `pat` in
`s`, if any. -/
def indexOfSub (pat : Str) : Str → Option Nat
  | [] => if pat.isPrefixOf ([] : Str) then some 0 else none
  | c :: t => if pat.isPrefixOf (c :: t) then some 0 else (indexOfSub pat t).map (· + 1)

/-- The literal marker scanned for in the helm package output. -/
def marker : Str := ("saved it to:").data

/-- The loop body of `extractPackagePath` (helm.go): first line containing
the marker wins; the path is the trimmed text after the marker's first
occurrence in that line. -/
def extractLoop : List Str → Option Str
  | [] => none
  | l :: rest =>
    match indexOfSub marker l with
    | some idx => some (trimSpace (l.drop (idx + marker.length)))
    | none => extractLoop rest

/-- `extractPackagePath` (helm.go). -/
def extractPackagePath (output : Str) : Except Str Str :=
  match extractLoop (splitOnNL output) with
  | some p => .ok p
  | none => .error (("could not determine package path from output: ").data ++ output)

/-! ## The repository publisher (repository.go)

Network requests and subprocess invocations are recorded as an explicit
effect trace; their results come from an oracle environment so that the
embedded functions stay pure. -/

/-- An HTTP request as assembled by the publisher.  `contentLength` is
`none` when the code leaves `Request.ContentLength` unset (streaming body
of unknown size) and `some n` when it assigns it explicitly. -/
structure HTTPRequest where
  method : Str
  url : Str
  contentType : Str
  contentLength : Option Nat
  basicAuth : Option (Str × Str)
  timeoutSeconds : Nat
  bodyFile : Str
deriving DecidableEq

/-- An HTTP response (status code and body text). -/
structure HTTPResponse where
  status : Nat
  body : Str
deriving DecidableEq

/-- Externally observable side effects of the publisher. -/
inductive Effect where
  | exec (cmd : Str) (args : List Str) (stdinData : Option Str)
  | http (req : HTTPRequest)
  | fopen (path : Str)
  | fread (path : Str)
  | mkdirAll (path : Str)
deriving DecidableEq

/-- Whether an effect is a network call or a subprocess invocation. -/
def isExternalEffect : Effect → Bool
  | .exec _ _ _ => true
  | .http _ => true
  | _ => false

/-- Oracle for the results of the publisher's side effects. -/
structure PushEnv where
  openFile : Str → Except Str Unit
  statSize : Str → Except Str Nat
  send : HTTPRequest → Except Str HTTPResponse
  runExec : Str → List Str → Option Str → Except Str Unit

/-- `RepositoryConfig` (main.go).  The Go field `Type` is embedded as
`rtype`. -/
structure RepositoryConfig where
  rtype : Str
  url : Str
  name : Str
  username : Str
  password : Str
  registryConfig : Str

/-- `Repository` (repository.go): configuration plus the ChartMuseum
context path set through `SetContextPath`. -/
structure Repository where
  config : RepositoryConfig
  contextPath : Str

/-- The `helm` executable name. -/
def helmCmd : Str := ("helm").data

/-- `strings.TrimPrefix`. -/
def trimPfx (pre s : Str) : Str :=
  if pre.isPrefixOf s then s.drop pre.length else s

/-- Host portion of an OCI target address as computed by `pushOCI` and
`Logout`: strip the `oci://` scheme, then `strings.SplitN(registry, "/", 2)[0]`,
i.e. everything before the first path separator. -/
def registryHostOf (url : Str) : Str :=
  (trimPfx (("oci://").data) url).takeWhile (fun c => c ≠ '/')

/-- The argument vector of the `helm registry login` invocation issued by
`registryLogin` (repository.go): the password travels on standard input
(`--password-stdin`), not as an argument. -/
def registryLoginArgs (r : Repository) (registry : Str) : List Str :=
  [("registry").data, ("login").data, registry,
   ("--username").data, r.config.username, ("--password-stdin").data]

/-- `registryLogin` (repository.go): run `helm registry login` with the
password supplied over stdin. -/
def registryLogin (r : Repository) (env : PushEnv) (registry : Str) :
    List Effect × Except Str Unit :=
  ([.exec helmCmd (registryLoginArgs r registry) (some r.config.password)],
   env.runExec helmCmd (registryLoginArgs r registry) (some r.config.password))

/-- `pushOCI` (repository.go): log in first when both credentials are
present (aborting on login failure), then run `helm push`. -/
def pushOCI (r : Repository) (env : PushEnv) (packagePath : Str) :
    List Effect × Except Str Unit :=
  if r.config.username ≠ [] ∧ r.config.password ≠ [] then
    match registryLogin r env (registryHostOf r.config.url) with
    | (loginEffs, .error e) =>
      (loginEffs, .error (("registry login failed: ").data ++ e))
    | (loginEffs, .ok _) =>
      (loginEffs ++ [.exec helmCmd [("push").data, packagePath, r.config.url] none],
       match env.runExec helmCmd [("push").data, packagePath, r.config.url] none with
       | .error e => .error (("helm push failed: ").data ++ e)
       | .ok _ => .ok ())
  else
    ([.exec helmCmd [("push").data, packagePath, r.config.url] none],
     match env.runExec helmCmd [("push").data, packagePath, r.config.url] none with
     | .error e => .error (("helm push failed: ").data ++ e)
     | .ok _ => .ok ())

/-- The upload endpoint used by `pushChartMuseum`: the base URL plus
`/api/charts`, with the context path spliced in between when set. -/
def cmEndpoint (r : Repository) : Str :=
  if r.contextPath ≠ [] then
    r.config.url ++ '/' :: (r.contextPath ++ ("/api/charts").data)
  else
    r.config.url ++ ("/api/charts").data

/-- The POST request assembled by `pushChartMuseum`: gzip content type,
basic auth when both credentials are present, 60 second timeout, the
package file streamed as the body (no explicit content length). -/
def cmRequest (r : Repository) (packagePath : Str) : HTTPRequest :=
  { method := ("POST").data
    url := cmEndpoint r
    contentType := ("application/gzip").data
    contentLength := none
    basicAuth :=
      if r.config.username ≠ [] ∧ r.config.password ≠ [] then
        some (r.config.username, r.config.password)
      else none
    timeoutSeconds := 60
    bodyFile := packagePath }

/-- `pushChartMuseum` (repository.go). -/
def pushChartMuseum (r : Repository) (env : PushEnv) (packagePath : Str) :
    List Effect × Except Str Unit :=
  match env.openFile packagePath with
  | .error e => ([.fopen packagePath], .error (("failed to open package: ").data ++ e))
  | .ok _ =>
    ([.fopen packagePath, .http (cmRequest r packagePath)],
     match env.send (cmRequest r packagePath) with
     | .error e => .error (("failed to push chart: ").data ++ e)
     | .ok resp =>
       if resp.status ≠ 201 ∧ resp.status ≠ 200 then
         .error ((("upload failed with status ").data ++ (Nat.repr resp.status).data) ++
           (": ").data ++ resp.body)
       else .ok ())

/-- The PUT request assembled by `pushHTTP`: gzip content type, an
explicit content length equal to the package file's size, basic auth when
both credentials are present, 120 second timeout. -/
def httpPutRequest (r : Repository) (packagePath : Str) (size : Nat) : HTTPRequest :=
  { method := ("PUT").data
    url := r.config.url
    contentType := ("application/gzip").data
    contentLength := some size
    basicAuth :=
      if r.config.username ≠ [] ∧ r.config.password ≠ [] then
        some (r.config.username, r.config.password)
      else none
    timeoutSeconds := 120
    bodyFile := packagePath }

/-- `pushHTTP` (repository.go). -/
def pushHTTP (r : Repository) (env : PushEnv) (packagePath : Str) :
    List Effect × Except Str Unit :=
  match env.openFile packagePath with
  | .error e => ([.fopen packagePath], .error (("failed to open package: ").data ++ e))
  | .ok _ =>
    match env.statSize packagePath with
    | .error e => ([.fopen packagePath], .error (("failed to stat package: ").data ++ e))
    | .ok size =>
      ([.fopen packagePath, .http (httpPutRequest r packagePath size)],
       match env.send (httpPutRequest r packagePath size) with
       | .error e => .error (("failed to push chart: ").data ++ e)
       | .ok resp =>
         if resp.status < 200 ∨ 300 ≤ resp.status then
           .error ((("upload failed with status ").data ++ (Nat.repr resp.status).data) ++
             (": ").data ++ resp.body)
         else .ok ())

/-- `Repository.Push` (repository.go): dispatch on the repository type,
rejecting unsupported kinds before any effect is produced. -/
def Push (r : Repository) (env : PushEnv) (packagePath : Str) :
    List Effect × Except Str Unit :=
  if r.config.rtype = ("oci").data then pushOCI r env packagePath
  else if r.config.rtype = ("chartmuseum").data then pushChartMuseum r env packagePath
  else if r.config.rtype = ("http").data then pushHTTP r env packagePath
  else ([], .error (("unsupported repository type: ").data ++ r.config.rtype))

/-! ## The plugin orchestrator (main.go) -/

/-- `Chart` (chart.go); list-valued and unused metadata fields are kept as
opaque strings since no claim depends on them. -/
structure Chart where
  apiVersion : Str
  name : Str
  version : Str
  appVersion : Str
  description : Str

/-- `VersionConfig` (main.go). -/
structure VersionConfig where
  updateChart : Bool
  updateAppVersion : Bool
  appVersionFormat : Str

/-- `DependencyConfig` (main.go). -/
structure DependencyConfig where
  update : Bool
  build : Bool

/-- `Config` (main.go). -/
structure Config where
  chartPath : Str
  repository : RepositoryConfig
  version : VersionConfig
  lint : Bool
  lintStrict : Bool
  templateValidate : Bool
  test : Bool
  kubeVersion : Str
  apiVersions : List Str
  dependencies : DependencyConfig
  sign : Bool
  signKey : Str
  keyring : Str
  passphraseFile : Str
  outputDir : Str
  contextPath : Str
  dryRun : Bool

/-- `plugin.ExecuteResponse`: the outcome reported to the host. -/
structure ExecuteResponse where
  success : Bool
  message : Str
deriving DecidableEq

/-- `SignOptions` (helm.go). -/
structure SignOptions where
  keyring : Str
  key : Str
  passphraseFile : Str

/-- Oracle for the orchestrator's external collaborators: the result of
reading and YAML-parsing Chart.yaml (`ParseChart`), of `os.MkdirAll`, of
the combined output and exit status of `helm package`, plus the publisher
oracle. -/
structure PluginEnv where
  parseChart : Except Str Chart
  mkdir : Str → Except Str Unit
  combinedOutput : Str → List Str → Str × Except Str Unit
  pushEnv : PushEnv

/-- Argument vector of the `helm package` invocation (helm.go,
`HelmCLI.Package`). -/
def packageArgs (chartPath outputDir : Str) (signOpts : Option SignOptions) : List Str :=
  [("package").data, chartPath, ("-d").data, outputDir] ++
  match signOpts with
  | none => []
  | some o =>
    [("--sign").data] ++
    (if o.keyring ≠ [] then [("--keyring").data, o.keyring] else []) ++
    (if o.key ≠ [] then [("--key").data, o.key] else []) ++
    (if o.passphraseFile ≠ [] then [("--passphrase-file").data, o.passphraseFile] else [])

/-- `HelmCLI.Package` (helm.go): run `helm package`, wrap a non-zero exit
together with the combined output, otherwise scrape the package path from
the output. -/
def helmPackage (env : PluginEnv) (chartPath outputDir : Str)
    (signOpts : Option SignOptions) : List Effect × Except Str Str :=
  ([.exec helmCmd (packageArgs chartPath outputDir signOpts) none],
   match (env.combinedOutput helmCmd (packageArgs chartPath outputDir signOpts)).2 with
   | .error e =>
     .error ((("helm package failed: ").data ++ e) ++
       '\n' :: (env.combinedOutput helmCmd (packageArgs chartPath outputDir signOpts)).1)
   | .ok _ => extractPackagePath (env.combinedOutput helmCmd (packageArgs chartPath outputDir signOpts)).1)

/-- `filepath.Join` on two non-empty components (the only way the
orchestrator uses it; the path-cleaning part of `Join` is irrelevant to
every claim and is not modelled). -/
def joinPath (a b : Str) : Str :=
  a ++ '/' :: b

/-- `executePostPublish` (main.go): parse the chart, ensure the output
directory, package, and push, and report a `[DRY-RUN]`-prefixed or plain
publish message.  In the source every step checks `cfg.DryRun`
individually; the flag is constant throughout the call, so those checks
collapse into the single branch taken here, in which the directory
creation, the packaging subprocess and the push are all skipped (the
synthetic dry-run package path is only passed to the skipped push and to
logging, and is therefore not materialized). -/
def executePostPublish (cfg : Config) (version : Str) (env : PluginEnv) :
    List Effect × ExecuteResponse :=
  match env.parseChart with
  | .error e =>
    ([.fread (joinPath (if cfg.chartPath = [] then (".").data else cfg.chartPath) (("Chart.yaml").data))],
     { success := false, message := ("Failed to parse Chart.yaml: ").data ++ e })
  | .ok chart =>
    if cfg.dryRun then
      ([.fread (joinPath (if cfg.chartPath = [] then (".").data else cfg.chartPath) (("Chart.yaml").data))],
       { success := true
         message := (("[DRY-RUN] Would publish ").data ++ chart.name) ++
           '@' :: (version ++ (" to ").data ++ cfg.repository.url) })
    else
      match env.mkdir (if cfg.outputDir = [] then (".helm-packages").data else cfg.outputDir) with
      | .error e =>
        ([.fread (joinPath (if cfg.chartPath = [] then (".").data else cfg.chartPath) (("Chart.yaml").data)),
          .mkdirAll (if cfg.outputDir = [] then (".helm-packages").data else cfg.outputDir)],
         { success := false, message := ("Failed to create output directory: ").data ++ e })
      | .ok _ =>
        match helmPackage env (if cfg.chartPath = [] then (".").data else cfg.chartPath)
            (if cfg.outputDir = [] then (".helm-packages").data else cfg.outputDir)
            (if cfg.sign then some ⟨cfg.keyring, cfg.signKey, cfg.passphraseFile⟩ else none) with
        | (pkgEffs, .error e) =>
          ([.fread (joinPath (if cfg.chartPath = [] then (".").data else cfg.chartPath) (("Chart.yaml").data)),
            .mkdirAll (if cfg.outputDir = [] then (".helm-packages").data else cfg.outputDir)] ++ pkgEffs,
           { success := false, message := ("Failed to package chart: ").data ++ e })
        | (pkgEffs, .ok packagePath) =>
          match Push { config := cfg.repository, contextPath := cfg.contextPath } env.pushEnv packagePath with
          | (pushEffs, .error e) =>
            ([.fread (joinPath (if cfg.chartPath = [] then (".").data else cfg.chartPath) (("Chart.yaml").data)),
              .mkdirAll (if cfg.outputDir = [] then (".helm-packages").data else cfg.outputDir)] ++
              pkgEffs ++ pushEffs,
             { success := false, message := ("Failed to push chart: ").data ++ e })
          | (pushEffs, .ok _) =>
            ([.fread (joinPath (if cfg.chartPath = [] then (".").data else cfg.chartPath) (("Chart.yaml").data)),
              .mkdirAll (if cfg.outputDir = [] then (".helm-packages").data else cfg.outputDir)] ++
              pkgEffs ++ pushEffs,
             { success := true
               message := (("Published ").data ++ chart.name) ++
                 '@' :: (version ++ (" to ").data ++ cfg.repository.url) })

/-! ## Claim C3: the artifact-path extractor -/

theorem extractLoop_eq_find (ls : List Str) :
    extractLoop ls =
      (ls.find? (fun l => (indexOfSub marker l).isSome)).map
        (fun l => trimSpace (l.drop ((indexOfSub marker l).getD 0 + marker.length))) := by
  induction ls with
  | nil => rfl
  | cons l rest ih =>
    rcases hidx : indexOfSub marker l with _ | idx
    · rw [List.find?_cons_of_neg _ (by simp [hidx])]
      simp only [extractLoop, hidx]
      exact ih
    · rw [List.find?_cons_of_pos _ (by simp [hidx])]
      simp [extractLoop, hidx]

/-- C3: for every packaging-output text, `extractPackagePath` returns the
trimmed text that follows the first occurrence of the literal marker
`"saved it to:"` on the first line containing that marker, and returns the
"could not determine package path" error exactly when no line contains the
marker (in particular on the empty string, whose only line is empty). -/
theorem extractPackagePath_spec (output : Str) :
    extractPackagePath output =
      match (splitOnNL output).find? (fun l => (indexOfSub marker l).isSome) with
      | some l => .ok (trimSpace (l.drop ((indexOfSub marker l).getD 0 + marker.length)))
      | none => .error (("could not determine package path from output: ").data ++ output) := by
  unfold extractPackagePath
  rw [extractLoop_eq_find]
  rcases h : (splitOnNL output).find? (fun l => (indexOfSub marker l).isSome) with _ | l <;> simp

/-! ## Claims C4, C5, C8, C9, C10: the repository publisher -/

/-- C9: for every target whose kind is none of `oci`, `chartmuseum` and
`http`, `Push` fails immediately with a message naming the unsupported
repository type, and its effect trace is empty: no file, network or
subprocess I/O happens. -/
theorem Push_unsupportedType (r : Repository) (env : PushEnv) (packagePath : Str)
    (h1 : ¬ r.config.rtype = ("oci").data)
    (h2 : ¬ r.config.rtype = ("chartmuseum").data)
    (h3 : ¬ r.config.rtype = ("http").data) :
    Push r env packagePath =
      ([], .error (("unsupported repository type: ").data ++ r.config.rtype)) := by
  unfold Push
  rw [if_neg h1, if_neg h2, if_neg h3]

/-- Witness for C9 at the concrete kind `unknown`. -/
theorem Push_unsupportedType_witness :
    Push
      { config := { rtype := ("unknown").data, url := ("https://r.example").data, name := [],
                    username := [], password := [], registryConfig := [] }, contextPath := [] }
      { openFile := fun _ => .ok (), statSize := fun _ => .ok 0,
        send := fun _ => .ok { status := 200, body := [] }, runExec := fun _ _ _ => .ok () }
      (("chart-1.0.0.tgz").data) =
      ([], .error (("unsupported repository type: ").data ++ ("unknown").data)) :=
  Push_unsupportedType _ _ _ (by decide) (by decide) (by decide)

/-- C4: pushing to a chartmuseum target (with the package file opening
successfully and the request producing a response) succeeds exactly when
the response status is 200 or 201, and for every other status it fails
with a reason carrying the status code and the response body. -/
theorem pushChartMuseum_statusClassification (r : Repository) (env : PushEnv)
    (packagePath : Str) (resp : HTTPResponse)
    (ht : r.config.rtype = ("chartmuseum").data)
    (hopen : env.openFile packagePath = .ok ())
    (hsend : env.send (cmRequest r packagePath) = .ok resp) :
    (Push r env packagePath).2 =
      (if resp.status = 200 ∨ resp.status = 201 then .ok ()
       else .error ((("upload failed with status ").data ++ (Nat.repr resp.status).data) ++
         (": ").data ++ resp.body)) := by
  unfold Push
  rw [if_neg (by rw [ht]; decide), if_pos ht]
  unfold pushChartMuseum
  rw [hopen]
  simp only [hsend]
  by_cases h200 : resp.status = 200
  · simp [h200]
  · by_cases h201 : resp.status = 201
    · simp [h201]
    · simp [h200, h201]

/-- Witness for C4 at status 404. -/
theorem pushChartMuseum_statusClassification_witness :
    (Push
      { config := { rtype := ("chartmuseum").data, url := ("https://cm.example").data, name := [],
                    username := [], password := [], registryConfig := [] }, contextPath := [] }
      { openFile := fun _ => .ok (), statSize := fun _ => .ok 0,
        send := fun _ => .ok { status := 404, body := ("not found").data },
        runExec := fun _ _ _ => .ok () }
      (("chart-1.0.0.tgz").data)).2 =
      (if 404 = 200 ∨ 404 = 201 then .ok ()
       else .error ((("upload failed with status ").data ++ (Nat.repr 404).data) ++
         (": ").data ++ ("not found").data)) :=
  pushChartMuseum_statusClassification _ _ _ _ rfl rfl rfl

/-- C8: pushing to an http target (package opened and sized successfully,
request producing a response) issues exactly one network request, a PUT
whose declared content length equals the package file's byte size, and
fails exactly on statuses outside the 2xx range, carrying the status and
the body in the reason. -/
theorem pushHTTP_contentLengthAndStatus (r : Repository) (env : PushEnv)
    (packagePath : Str) (size : Nat) (resp : HTTPResponse)
    (ht : r.config.rtype = ("http").data)
    (hopen : env.openFile packagePath = .ok ())
    (hstat : env.statSize packagePath = .ok size)
    (hsend : env.send (httpPutRequest r packagePath size) = .ok resp) :
    (Push r env packagePath).1 = [.fopen packagePath, .http (httpPutRequest r packagePath size)] ∧
    (httpPutRequest r packagePath size).method = ("PUT").data ∧
    (httpPutRequest r packagePath size).contentLength = some size ∧
    (Push r env packagePath).2 =
      (if 200 ≤ resp.status ∧ resp.status < 300 then .ok ()
       else .error ((("upload failed with status ").data ++ (Nat.repr resp.status).data) ++
         (": ").data ++ resp.body)) := by
  unfold Push
  rw [if_neg (by rw [ht]; decide), if_neg (by rw [ht]; decide), if_pos ht]
  unfold pushHTTP
  rw [hopen, hstat]
  refine ⟨rfl, rfl, rfl, ?_⟩
  simp only [hsend]
  by_cases hlo : resp.status < 200
  · simp [hlo, Nat.not_le_of_lt hlo]
  · by_cases hhi : 300 ≤ resp.status
    · have : ¬ resp.status < 300 := Nat.not_lt_of_le hhi
      simp [hlo, hhi, this]
    · have h1 : 200 ≤ resp.status := Nat.le_of_not_lt hlo
      have h2 : resp.status < 300 := Nat.lt_of_not_le hhi
      simp [hlo, hhi, h1, h2]

/-- Witness for C8 at size 2048 and status 500. -/
theorem pushHTTP_contentLengthAndStatus_witness :
    ((Push
      { config := { rtype := ("http").data, url := ("https://up.example/c.tgz").data, name := [],
                    username := [], password := [], registryConfig := [] }, contextPath := [] }
      { openFile := fun _ => .ok (), statSize := fun _ => .ok 2048,
        send := fun _ => .ok { status := 500, body := ("boom").data },
        runExec := fun _ _ _ => .ok () }
      (("c.tgz").data)).1 =
      [.fopen (("c.tgz").data),
       .http (httpPutRequest
        { config := { rtype := ("http").data, url := ("https://up.example/c.tgz").data, name := [],
                      username := [], password := [], registryConfig := [] }, contextPath := [] }
        (("c.tgz").data) 2048)]) ∧
    (httpPutRequest
      { config := { rtype := ("http").data, url := ("https://up.example/c.tgz").data, name := [],
                    username := [], password := [], registryConfig := [] }, contextPath := [] }
      (("c.tgz").data) 2048).method = ("PUT").data ∧
    (httpPutRequest
      { config := { rtype := ("http").data, url := ("https://up.example/c.tgz").data, name := [],
                    username := [], password := [], registryConfig := [] }, contextPath := [] }
      (("c.tgz").data) 2048).contentLength = some 2048 ∧
    ((Push
      { config := { rtype := ("http").data, url := ("https://up.example/c.tgz").data, name := [],
                    username := [], password := [], registryConfig := [] }, contextPath := [] }
      { openFile := fun _ => .ok (), statSize := fun _ => .ok 2048,
        send := fun _ => .ok { status := 500, body := ("boom").data },
        runExec := fun _ _ _ => .ok () }
      (("c.tgz").data)).2 =
      (if 200 ≤ 500 ∧ 500 < 300 then .ok ()
       else .error ((("upload failed with status ").data ++ (Nat.repr 500).data) ++
         (": ").data ++ ("boom").data))) :=
  pushHTTP_contentLengthAndStatus _ _ _ _ _ rfl rfl rfl rfl

/-- C5: for an oci target with both credentials present, `Push` first runs
`helm registry login` scoped to the host portion of the address (the
`oci://` scheme stripped, then everything before the first `/`), passing
the password on standard input and never among the argument vector, and a
login failure aborts the push with a wrapped error: the trace holds the
login invocation only, no push command. -/
theorem pushOCI_loginFailureAborts (r : Repository) (env : PushEnv)
    (packagePath : Str) (e : Str)
    (ht : r.config.rtype = ("oci").data)
    (hu : r.config.username ≠ [])
    (hp : r.config.password ≠ [])
    (herr : env.runExec helmCmd (registryLoginArgs r (registryHostOf r.config.url))
      (some r.config.password) = .error e) :
    Push r env packagePath =
      ([.exec helmCmd (registryLoginArgs r (registryHostOf r.config.url))
          (some r.config.password)],
       .error (("registry login failed: ").data ++ e)) ∧
    registryLoginArgs r (registryHostOf r.config.url) =
      [("registry").data, ("login").data,
       (trimPfx (("oci://").data) r.config.url).takeWhile (fun c => c ≠ '/'),
       ("--username").data, r.config.username, ("--password-stdin").data] := by
  refine ⟨?_, rfl⟩
  unfold Push
  rw [if_pos ht]
  unfold pushOCI registryLogin
  rw [if_pos ⟨hu, hp⟩]
  simp only [herr]

/-- Witness for C5: a concrete registry `oci://reg.example.com/charts`
whose login is denied. -/
theorem pushOCI_loginFailureAborts_witness :
    (Push
      { config := { rtype := ("oci").data, url := ("oci://reg.example.com/charts").data, name := [],
                    username := ("alice").data, password := ("hunter2").data, registryConfig := [] },
        contextPath := [] }
      { openFile := fun _ => .ok (), statSize := fun _ => .ok 0,
        send := fun _ => .ok { status := 200, body := [] },
        runExec := fun _ _ _ => .error (("denied").data) }
      (("chart-1.0.0.tgz").data) =
      ([.exec helmCmd (registryLoginArgs
          { config := { rtype := ("oci").data, url := ("oci://reg.example.com/charts").data, name := [],
                        username := ("alice").data, password := ("hunter2").data, registryConfig := [] },
            contextPath := [] }
          (registryHostOf (("oci://reg.example.com/charts").data)))
          (some (("hunter2").data))],
       .error (("registry login failed: ").data ++ ("denied").data))) ∧
    registryLoginArgs
      { config := { rtype := ("oci").data, url := ("oci://reg.example.com/charts").data, name := [],
                    username := ("alice").data, password := ("hunter2").data, registryConfig := [] },
        contextPath := [] }
      (registryHostOf (("oci://reg.example.com/charts").data)) =
      [("registry").data, ("login").data,
       (trimPfx (("oci://").data) (("oci://reg.example.com/charts").data)).takeWhile (fun c => c ≠ '/'),
       ("--username").data, ("alice").data, ("--password-stdin").data] :=
  pushOCI_loginFailureAborts _ _ _ _ rfl (by decide) (by decide) rfl

/-- C10: for an oci target, the effect trace of `Push` starts with the
`helm registry login` invocation precisely when both the username and the
password are non-empty; otherwise (in particular when exactly one of them
is set) the whole trace is the single `helm push` invocation, with no
login attempt. -/
theorem pushOCI_loginExactlyWhenCredentials (r : Repository) (env : PushEnv)
    (packagePath : Str)
    (ht : r.config.rtype = ("oci").data) :
    (Push r env packagePath).1 =
      (if r.config.username ≠ [] ∧ r.config.password ≠ [] then
        .exec helmCmd (registryLoginArgs r (registryHostOf r.config.url))
            (some r.config.password) ::
          (match env.runExec helmCmd (registryLoginArgs r (registryHostOf r.config.url))
              (some r.config.password) with
           | .ok _ => [Effect.exec helmCmd [("push").data, packagePath, r.config.url] none]
           | .error _ => [])
       else [Effect.exec helmCmd [("push").data, packagePath, r.config.url] none]) := by
  unfold Push
  rw [if_pos ht]
  unfold pushOCI registryLogin
  by_cases hcred : r.config.username ≠ [] ∧ r.config.password ≠ []
  · rw [if_pos hcred, if_pos hcred]
    rcases hre : env.runExec helmCmd (registryLoginArgs r (registryHostOf r.config.url))
        (some r.config.password) with e | u
    · simp [hre]
    · rcases hpu : env.runExec helmCmd [("push").data, packagePath, r.config.url] none with e' | u' <;>
        simp [hre, hpu]
  · rw [if_neg hcred, if_neg hcred]

/-- Witness for C10: username set but password empty, so the push runs
with no prior login. -/
theorem pushOCI_loginExactlyWhenCredentials_witness :
    (Push
      { config := { rtype := ("oci").data, url := ("oci://reg.example.com/charts").data, name := [],
                    username := ("alice").data, password := [], registryConfig := [] },
        contextPath := [] }
      { openFile := fun _ => .ok (), statSize := fun _ => .ok 0,
        send := fun _ => .ok { status := 200, body := [] },
        runExec := fun _ _ _ => .ok () }
      (("chart-1.0.0.tgz").data)).1 =
      (if ("alice").data ≠ [] ∧ ([] : Str) ≠ [] then
        .exec helmCmd (registryLoginArgs
          { config := { rtype := ("oci").data, url := ("oci://reg.example.com/charts").data, name := [],
                        username := ("alice").data, password := [], registryConfig := [] },
            contextPath := [] }
          (registryHostOf (("oci://reg.example.com/charts").data))) (some ([] : Str)) ::
          (match (fun (_ : Str) (_ : List Str) (_ : Option Str) => (Except.ok () : Except Str Unit)) helmCmd
              (registryLoginArgs
                { config := { rtype := ("oci").data, url := ("oci://reg.example.com/charts").data, name := [],
                              username := ("alice").data, password := [], registryConfig := [] },
                  contextPath := [] }
                (registryHostOf (("oci://reg.example.com/charts").data))) (some ([] : Str)) with
           | .ok _ => [Effect.exec helmCmd [("push").data, ("chart-1.0.0.tgz").data,
               ("oci://reg.example.com/charts").data] none]
           | .error _ => [])
       else [Effect.exec helmCmd [("push").data, ("chart-1.0.0.tgz").data,
         ("oci://reg.example.com/charts").data] none]) :=
  pushOCI_loginExactlyWhenCredentials _ _ _ rfl

/-! ## Claim C7: dry-run publish -/

/-- C7: a dry-run `executePostPublish` on a manifest that parses
successfully always succeeds, its message is the publish message carrying
the `[DRY-RUN]` prefix (distinct from the `Published ...` message of a
real publish), and its effect trace contains no network call and no
subprocess invocation. -/
theorem executePostPublish_dryRunSuccess (cfg : Config) (version : Str)
    (env : PluginEnv) (chart : Chart)
    (hdry : cfg.dryRun = true)
    (hparse : env.parseChart = .ok chart) :
    ((executePostPublish cfg version env).1.all (fun eff => !isExternalEffect eff)) = true ∧
    (executePostPublish cfg version env).2 =
      { success := true
        message := (("[DRY-RUN] Would publish ").data ++ chart.name) ++
          '@' :: (version ++ (" to ").data ++ cfg.repository.url) } ∧
    ((executePostPublish cfg version env).2.message.take 9 = ("[DRY-RUN]").data) := by
  have hexec : executePostPublish cfg version env =
      ([.fread (joinPath (if cfg.chartPath = [] then (".").data else cfg.chartPath)
          (("Chart.yaml").data))],
       { success := true
         message := (("[DRY-RUN] Would publish ").data ++ chart.name) ++
           '@' :: (version ++ (" to ").data ++ cfg.repository.url) }) := by
    unfold executePostPublish
    rw [hparse]
    simp only [hdry, if_pos]
  refine ⟨?_, ?_, ?_⟩
  · rw [hexec]
    rfl
  · rw [hexec]
  · rw [hexec]
    have h24 : (9 : Nat) ≤ (("[DRY-RUN] Would publish ").data).length := by decide
    have h9 : 9 ≤ (("[DRY-RUN] Would publish ").data ++ chart.name).length := by
      rw [List.length_append]
      exact Nat.le_trans h24 (Nat.le_add_right _ _)
    simp only
    rw [List.take_append_of_le_length h9, List.take_append_of_le_length h24]
    decide

/-- The concrete configuration used by the C7 witness. -/
def dryRunCfg : Config :=
  { chartPath := []
    repository := { rtype := ("oci").data, url := ("oci://reg.example/c").data, name := [],
                    username := [], password := [], registryConfig := [] }
    version := { updateChart := true, updateAppVersion := true, appVersionFormat := [] }
    lint := true
    lintStrict := false
    templateValidate := true
    test := false
    kubeVersion := []
    apiVersions := []
    dependencies := { update := true, build := true }
    sign := false
    signKey := []
    keyring := []
    passphraseFile := []
    outputDir := []
    contextPath := []
    dryRun := true }

/-- The concrete chart used by the C7 witness. -/
def dryRunChart : Chart :=
  { apiVersion := ("v2").data, name := ("mychart").data, version := ("1.0.0").data,
    appVersion := [], description := [] }

/-- The concrete environment used by the C7 witness. -/
def dryRunEnv : PluginEnv :=
  { parseChart := .ok dryRunChart
    mkdir := fun _ => .ok ()
    combinedOutput := fun _ _ => ([], .ok ())
    pushEnv := { openFile := fun _ => .ok (), statSize := fun _ => .ok 0,
                 send := fun _ => .ok { status := 200, body := [] },
                 runExec := fun _ _ _ => .ok () } }

/-- Witness for C7 at a concrete configuration and chart. -/
theorem executePostPublish_dryRunSuccess_witness :
    ((executePostPublish dryRunCfg (("2.0.0").data) dryRunEnv).1.all
      (fun eff => !isExternalEffect eff)) = true ∧
    (executePostPublish dryRunCfg (("2.0.0").data) dryRunEnv).2 =
      { success := true
        message := (("[DRY-RUN] Would publish ").data ++ dryRunChart.name) ++
          '@' :: ((("2.0.0").data) ++ (" to ").data ++ dryRunCfg.repository.url) } ∧
    ((executePostPublish dryRunCfg (("2.0.0").data) dryRunEnv).2.message.take 9 =
      ("[DRY-RUN]").data) :=
  executePostPublish_dryRunSuccess dryRunCfg (("2.0.0").data) dryRunEnv dryRunChart rfl rfl

/-! ## Claims C1, C2, C6: the manifest version patcher

The behavioral lemmas below relate the character-level scanner to the
line structure of the manifest. -/

theorem matchKeyAt_nil (key : Str) : matchKeyAt key [] = none := by
  cases key with
  | nil => simp [matchKeyAt, matchRest, lastNonNL]
  | cons c k => simp [matchKeyAt, List.isPrefixOf]

theorem matchKeyAt_none_of_notPrefix {key t : Str} (h : key.isPrefixOf t = false) :
    matchKeyAt key t = none := by
  unfold matchKeyAt
  simp [h]

theorem isPrefixOf_line_append {key l : Str} (rest : Str) (hk : '\n' ∉ key)
    (hl : '\n' ∉ l) : key.isPrefixOf (l ++ '\n' :: rest) = key.isPrefixOf l := by
  induction key generalizing l with
  | nil => simp [List.isPrefixOf]
  | cons k ks ih =>
    cases l with
    | nil =>
      have hkn : (k == '\n') = false := by
        simp only [beq_eq_false_iff_ne, ne_eq]
        intro hkk
        exact hk (hkk ▸ List.mem_cons_self _ _)
      simp [List.isPrefixOf, List.isPrefixOf_cons₂, hkn]
    | cons c cs =>
      simp only [List.cons_append, List.isPrefixOf_cons₂]
      rw [ih (fun hm => hk (List.mem_cons_of_mem _ hm)) (fun hm => hl (List.mem_cons_of_mem _ hm))]

theorem replAux_nil (key repl : Str) (b : Bool) : replAux key repl [] b = [] := by
  conv_lhs => unfold replAux

theorem replAux_cons_false (key repl : Str) (c : Char) (r : Str) :
    replAux key repl (c :: r) false = c :: replAux key repl r (c == '\n') := by
  conv_lhs => unfold replAux
  rw [dif_neg]
  simp

theorem replAux_cons_nomatch {key : Str} (repl : Str) {c : Char} {r : Str}
    (h : matchKeyAt key (c :: r) = none) :
    replAux key repl (c :: r) true = c :: replAux key repl r (c == '\n') := by
  conv_lhs => unfold replAux
  rw [dif_neg]
  simp [h]

theorem replAux_cons_match {key : Str} (repl : Str) {c : Char} {r : Str} {m : Nat}
    (h : matchKeyAt key (c :: r) = some m) :
    replAux key repl (c :: r) true =
      expand ((c :: r).take m) repl ++ replAux key repl ((c :: r).drop m) false := by
  conv_lhs => unfold replAux
  rw [dif_pos ⟨rfl, by simp [h]⟩]
  congr 2 <;> rw [Option.get_of_mem _ h]

theorem replAux_skip_false {key repl l : Str} (rest : Str) (hl : '\n' ∉ l) :
    replAux key repl (l ++ '\n' :: rest) false = l ++ '\n' :: replAux key repl rest true := by
  induction l with
  | nil =>
    rw [List.nil_append, replAux_cons_false]
    simp
  | cons c cs ih =>
    rw [List.cons_append, replAux_cons_false]
    have hc : (c == '\n') = false := by
      simp only [beq_eq_false_iff_ne, ne_eq]
      intro hcc
      exact hl (hcc ▸ List.mem_cons_self _ _)
    rw [hc, ih (fun hm => hl (List.mem_cons_of_mem _ hm))]
    rfl

theorem replAux_skip_false_last {key repl l : Str} (hl : '\n' ∉ l) :
    replAux key repl l false = l := by
  induction l with
  | nil => exact replAux_nil ..
  | cons c cs ih =>
    rw [replAux_cons_false]
    have hc : (c == '\n') = false := by
      simp only [beq_eq_false_iff_ne, ne_eq]
      intro hcc
      exact hl (hcc ▸ List.mem_cons_self _ _)
    rw [hc, ih (fun hm => hl (List.mem_cons_of_mem _ hm))]

theorem replAux_skip_true {key repl l : Str} (rest : Str) (hk : '\n' ∉ key)
    (hl : '\n' ∉ l) (hpre : key.isPrefixOf l = false) :
    replAux key repl (l ++ '\n' :: rest) true = l ++ '\n' :: replAux key repl rest true := by
  have hm : matchKeyAt key (l ++ '\n' :: rest) = none :=
    matchKeyAt_none_of_notPrefix ((isPrefixOf_line_append rest hk hl).trans hpre)
  cases l with
  | nil =>
    rw [List.nil_append] at hm ⊢
    rw [replAux_cons_nomatch repl hm]
    simp
  | cons c cs =>
    rw [List.cons_append] at hm ⊢
    rw [replAux_cons_nomatch repl hm]
    have hc : (c == '\n') = false := by
      simp only [beq_eq_false_iff_ne, ne_eq]
      intro hcc
      exact hl (hcc ▸ List.mem_cons_self _ _)
    rw [hc, replAux_skip_false rest (fun hmm => hl (List.mem_cons_of_mem _ hmm))]
    rfl

theorem replAux_skip_true_last {key repl l : Str} (hl : '\n' ∉ l)
    (hpre : key.isPrefixOf l = false) :
    replAux key repl l true = l := by
  have hm : matchKeyAt key l = none := matchKeyAt_none_of_notPrefix hpre
  cases l with
  | nil => exact replAux_nil ..
  | cons c cs =>
    rw [replAux_cons_nomatch repl hm]
    have hc : (c == '\n') = false := by
      simp only [beq_eq_false_iff_ne, ne_eq]
      intro hcc
      exact hl (hcc ▸ List.mem_cons_self _ _)
    rw [hc, replAux_skip_false_last (fun hmm => hl (List.mem_cons_of_mem _ hmm))]

theorem takeWhile_append_stop {p : Char → Bool} {w y : Str}
    (hw : ∀ x ∈ w, p x = true)
    (hy : y = [] ∨ ∃ d r, y = d :: r ∧ p d = false) :
    (w ++ y).takeWhile p = w := by
  induction w with
  | nil =>
    rcases hy with rfl | ⟨d, r, rfl, hd⟩
    · rfl
    · rw [List.nil_append, List.takeWhile_cons, if_neg (by simp [hd])]
  | cons a as ih =>
    rw [List.cons_append, List.takeWhile_cons, if_pos (hw a (List.mem_cons_self _ _)),
      ih (fun x hx => hw x (List.mem_cons_of_mem _ hx))]

theorem matchRest_line {tail suffix : Str}
    (hnl : '\n' ∉ tail)
    (hany : tail.any (fun c => !isGoSpace c) = true)
    (hsuf : suffix = [] ∨ ∃ r, suffix = '\n' :: r) :
    matchRest (tail ++ suffix) = some tail.length := by
  have hdne : tail.dropWhile isGoSpace ≠ [] := by
    intro hnil
    rw [List.dropWhile_eq_nil_iff] at hnil
    rcases List.any_eq_true.mp hany with ⟨x, hx, hpx⟩
    rw [hnil x hx] at hpx
    simp at hpx
  rcases hd : tail.dropWhile isGoSpace with _ | ⟨c, cs⟩
  · exact absurd hd hdne
  have hc : isGoSpace c = false := dropWhile_head_false hd
  have hw : tail.takeWhile isGoSpace ++ c :: cs = tail := by
    conv_rhs => rw [← List.takeWhile_append_dropWhile (p := isGoSpace) (l := tail)]
    rw [hd]
  have htw : ∀ x ∈ tail.takeWhile isGoSpace, isGoSpace x = true :=
    fun x hx => List.mem_takeWhile_imp hx
  have htake : (tail ++ suffix).takeWhile isGoSpace = tail.takeWhile isGoSpace := by
    conv_lhs => rw [← hw, List.append_assoc]
    exact takeWhile_append_stop htw (Or.inr ⟨c, cs ++ suffix, rfl, hc⟩)
  have hlen : tail.length = (tail.takeWhile isGoSpace).length + (cs.length + 1) := by
    conv_lhs => rw [← hw]
    rw [List.length_append]
    simp only [List.length_cons]
  have hqlt : ((tail ++ suffix).takeWhile isGoSpace).length < (tail ++ suffix).length := by
    rw [htake, List.length_append]
    omega
  unfold matchRest
  rw [if_pos hqlt, htake]
  have hdropq : (tail ++ suffix).drop ((tail.takeWhile isGoSpace).length) = c :: (cs ++ suffix) := by
    have h1 : tail ++ suffix = (tail.takeWhile isGoSpace) ++ (c :: (cs ++ suffix)) := by
      rw [show c :: (cs ++ suffix) = (c :: cs) ++ suffix from rfl, ← List.append_assoc, hw]
    rw [h1]
    exact List.drop_left _ _
  rw [hdropq]
  have hcsnl : ∀ x ∈ (c :: cs), (fun x => decide (x ≠ '\n')) x = true := by
    intro x hx
    have hxt : x ∈ tail := by
      rw [← hw]
      exact List.mem_append_right _ hx
    simp only [ne_eq, decide_eq_true_eq]
    intro hxx
    exact hnl (hxx ▸ hxt)
  have htk : (c :: (cs ++ suffix)).takeWhile (fun x => decide (x ≠ '\n')) = c :: cs := by
    have hassoc : c :: (cs ++ suffix) = (c :: cs) ++ suffix := rfl
    rw [hassoc]
    refine takeWhile_append_stop hcsnl ?_
    rcases hsuf with rfl | ⟨r, rfl⟩
    · exact Or.inl rfl
    · exact Or.inr ⟨'\n', r, rfl, by simp⟩
  rw [htk]
  simp only [List.length_cons, Option.some.injEq]
  omega

theorem matchKeyAt_strict_line {key lv : Str} (suffix : Str)
    (hpre : key.isPrefixOf lv = true) (hnl : '\n' ∉ lv)
    (hstrict : (lv.drop key.length).any (fun c => !isGoSpace c) = true)
    (hsuf : suffix = [] ∨ ∃ r, suffix = '\n' :: r) :
    matchKeyAt key (lv ++ suffix) = some lv.length := by
  obtain ⟨tail, rfl⟩ := List.isPrefixOf_iff_prefix.mp hpre
  rw [List.drop_left] at hstrict
  have htnl : '\n' ∉ tail := fun hm => hnl (List.mem_append_right _ hm)
  have hpre2 : key.isPrefixOf ((key ++ tail) ++ suffix) = true := by
    rw [List.append_assoc]
    exact List.isPrefixOf_iff_prefix.mpr ⟨tail ++ suffix, rfl⟩
  unfold matchKeyAt
  rw [if_pos hpre2]
  have hdrop2 : ((key ++ tail) ++ suffix).drop key.length = tail ++ suffix := by
    rw [List.append_assoc]
    exact List.drop_left _ _
  rw [hdrop2, matchRest_line htnl hstrict hsuf]
  simp [List.length_append]

theorem replAux_match_line {key repl lv : Str} (rest : Str)
    (hpre : key.isPrefixOf lv = true) (hnl : '\n' ∉ lv)
    (hstrict : (lv.drop key.length).any (fun c => !isGoSpace c) = true) :
    replAux key repl (lv ++ '\n' :: rest) true =
      expand lv repl ++ '\n' :: replAux key repl rest true := by
  have hm := matchKeyAt_strict_line ('\n' :: rest) hpre hnl hstrict (Or.inr ⟨rest, rfl⟩)
  rcases lv with _ | ⟨c, cs⟩
  · simp at hstrict
  · rw [List.cons_append] at hm ⊢
    rw [replAux_cons_match repl hm]
    simp only [List.length_cons, List.take_succ_cons, List.drop_succ_cons]
    rw [List.take_left, List.drop_left, replAux_cons_false]
    simp

theorem replAux_match_line_last {key repl lv : Str}
    (hpre : key.isPrefixOf lv = true) (hnl : '\n' ∉ lv)
    (hstrict : (lv.drop key.length).any (fun c => !isGoSpace c) = true) :
    replAux key repl lv true = expand lv repl := by
  have hm := matchKeyAt_strict_line [] hpre hnl hstrict (Or.inl rfl)
  rw [List.append_nil] at hm
  rcases lv with _ | ⟨c, cs⟩
  · simp at hstrict
  · rw [replAux_cons_match repl hm]
    simp only [List.length_cons, List.take_succ_cons, List.drop_succ_cons]
    rw [List.take_length, List.drop_length, replAux_nil, List.append_nil]

theorem hasKeyMatch_nil (key : Str) (b : Bool) : hasKeyMatch key [] b = false := by
  simp [hasKeyMatch, matchKeyAt_nil]

theorem hasKeyMatch_cons (key : Str) (c : Char) (r : Str) (b : Bool) :
    hasKeyMatch key (c :: r) b =
      ((b && (matchKeyAt key (c :: r)).isSome) || hasKeyMatch key r (c == '\n')) := rfl

theorem hasKeyMatch_false_of_no_nl {key t : Str} (h : '\n' ∉ t) :
    hasKeyMatch key t false = false := by
  induction t with
  | nil => exact hasKeyMatch_nil ..
  | cons c cs ih =>
    rw [hasKeyMatch_cons]
    have hc : (c == '\n') = false := by
      simp only [beq_eq_false_iff_ne, ne_eq]
      intro hcc
      exact h (hcc ▸ List.mem_cons_self _ _)
    rw [hc, ih (fun hm => h (List.mem_cons_of_mem _ hm))]
    simp

theorem hasKeyMatch_line_last {key l : Str} (b : Bool) (hl : '\n' ∉ l) :
    hasKeyMatch key l b = (b && (matchKeyAt key l).isSome) := by
  cases l with
  | nil => simp [hasKeyMatch]
  | cons c cs =>
    rw [hasKeyMatch_cons]
    have hc : (c == '\n') = false := by
      simp only [beq_eq_false_iff_ne, ne_eq]
      intro hcc
      exact hl (hcc ▸ List.mem_cons_self _ _)
    rw [hc, hasKeyMatch_false_of_no_nl (fun hm => hl (List.mem_cons_of_mem _ hm))]
    simp

theorem hasKeyMatch_line_append {key l : Str} (rest : Str) (b : Bool) (hl : '\n' ∉ l) :
    hasKeyMatch key (l ++ '\n' :: rest) b =
      ((b && (matchKeyAt key (l ++ '\n' :: rest)).isSome) || hasKeyMatch key rest true) := by
  induction l generalizing b with
  | nil =>
    rw [List.nil_append, hasKeyMatch_cons]
    simp
  | cons c cs ih =>
    rw [List.cons_append, hasKeyMatch_cons]
    have hc : (c == '\n') = false := by
      simp only [beq_eq_false_iff_ne, ne_eq]
      intro hcc
      exact hl (hcc ▸ List.mem_cons_self _ _)
    rw [hc, ih false (fun hm => hl (List.mem_cons_of_mem _ hm))]
    simp

theorem patternMatch_true_of_strict_line {key : Str} (ls : List Str) (i : Nat)
    (hi : i < ls.length)
    (hlines : ∀ l ∈ ls, '\n' ∉ l)
    (hpre : key.isPrefixOf (ls.get ⟨i, hi⟩) = true)
    (hstrict : ((ls.get ⟨i, hi⟩).drop key.length).any (fun c => !isGoSpace c) = true) :
    patternMatch key (joinLines ls) = true := by
  induction ls generalizing i with
  | nil => exact absurd hi (by simp)
  | cons l ls' ih =>
    cases i with
    | zero =>
      have hget0 : (l :: ls').get ⟨0, hi⟩ = l := rfl
      rw [hget0] at hpre hstrict
      cases ls' with
      | nil =>
        unfold patternMatch
        rw [show joinLines [l] = l from rfl,
          hasKeyMatch_line_last true (hlines l (List.mem_cons_self _ _))]
        have hm := matchKeyAt_strict_line [] hpre (hlines l (List.mem_cons_self _ _)) hstrict
          (Or.inl rfl)
        rw [List.append_nil] at hm
        simp [hm]
      | cons l2 ls'' =>
        unfold patternMatch
        rw [show joinLines (l :: l2 :: ls'') = l ++ '\n' :: joinLines (l2 :: ls'') from rfl,
          hasKeyMatch_line_append _ true (hlines l (List.mem_cons_self _ _))]
        have hm := matchKeyAt_strict_line ('\n' :: joinLines (l2 :: ls'')) hpre
          (hlines l (List.mem_cons_self _ _)) hstrict (Or.inr ⟨_, rfl⟩)
        simp [hm]
    | succ j =>
      cases ls' with
      | nil => exact absurd hi (by simp)
      | cons l2 ls'' =>
        have hj : j < (l2 :: ls'').length := by
          simpa using Nat.lt_of_succ_lt_succ hi
        have hthis := ih j hj (fun l' hl' => hlines l' (List.mem_cons_of_mem _ hl'))
          (by rw [← List.get_cons_succ (a := l) (h := hi)]; exact hpre)
          (by rw [← List.get_cons_succ (a := l) (h := hi)]; exact hstrict)
        unfold patternMatch at hthis ⊢
        rw [show joinLines (l :: l2 :: ls'') = l ++ '\n' :: joinLines (l2 :: ls'') from rfl,
          hasKeyMatch_line_append _ true (hlines l (List.mem_cons_self _ _)), hthis]
        simp

theorem hasKeyMatch_false_of_no_key_line {key : Str} (ls : List Str) (b : Bool)
    (hk : '\n' ∉ key)
    (hlines : ∀ l ∈ ls, '\n' ∉ l)
    (hnone : ∀ l ∈ ls, key.isPrefixOf l = false) :
    hasKeyMatch key (joinLines ls) b = false := by
  induction ls generalizing b with
  | nil => exact hasKeyMatch_nil ..
  | cons l ls' ih =>
    cases ls' with
    | nil =>
      rw [show joinLines [l] = l from rfl,
        hasKeyMatch_line_last b (hlines l (List.mem_cons_self _ _)),
        matchKeyAt_none_of_notPrefix (hnone l (List.mem_cons_self _ _))]
      simp
    | cons l2 ls'' =>
      rw [show joinLines (l :: l2 :: ls'') = l ++ '\n' :: joinLines (l2 :: ls'') from rfl,
        hasKeyMatch_line_append _ b (hlines l (List.mem_cons_self _ _)),
        matchKeyAt_none_of_notPrefix
          ((isPrefixOf_line_append _ hk (hlines l (List.mem_cons_self _ _))).trans
            (hnone l (List.mem_cons_self _ _))),
        ih true (fun l' hl' => hlines l' (List.mem_cons_of_mem _ hl'))
          (fun l' hl' => hnone l' (List.mem_cons_of_mem _ hl'))]
      simp

theorem joinLines_cons_ne {l : Str} {A : List Str} (h : A ≠ []) :
    joinLines (l :: A) = l ++ '\n' :: joinLines A := by
  cases A with
  | nil => exact absurd rfl h
  | cons a as => rfl

theorem replAux_no_key_line {key repl : Str} (ls : List Str)
    (hk : '\n' ∉ key)
    (hlines : ∀ l ∈ ls, '\n' ∉ l)
    (hnone : ∀ l ∈ ls, key.isPrefixOf l = false) :
    replAux key repl (joinLines ls) true = joinLines ls := by
  induction ls with
  | nil => exact replAux_nil ..
  | cons l ls' ih =>
    cases ls' with
    | nil =>
      rw [show joinLines [l] = l from rfl]
      exact replAux_skip_true_last (hlines l (List.mem_cons_self _ _))
        (hnone l (List.mem_cons_self _ _))
    | cons l2 ls'' =>
      rw [show joinLines (l :: l2 :: ls'') = l ++ '\n' :: joinLines (l2 :: ls'') from rfl,
        replAux_skip_true _ hk (hlines l (List.mem_cons_self _ _))
          (hnone l (List.mem_cons_self _ _)),
        ih (fun l' hl' => hlines l' (List.mem_cons_of_mem _ hl'))
          (fun l' hl' => hnone l' (List.mem_cons_of_mem _ hl'))]

theorem replaceAllKey_single_line {key repl : Str} (ls : List Str) (i : Nat)
    (hk : '\n' ∉ key)
    (hi : i < ls.length)
    (hlines : ∀ l ∈ ls, '\n' ∉ l)
    (hpre : key.isPrefixOf (ls.get ⟨i, hi⟩) = true)
    (hstrict : ((ls.get ⟨i, hi⟩).drop key.length).any (fun c => !isGoSpace c) = true)
    (hothers : ∀ j (hj : j < ls.length), j ≠ i → key.isPrefixOf (ls.get ⟨j, hj⟩) = false) :
    replaceAllKey key repl (joinLines ls) =
      joinLines (ls.set i (expand (ls.get ⟨i, hi⟩) repl)) := by
  unfold replaceAllKey
  induction ls generalizing i with
  | nil => exact absurd hi (by simp)
  | cons l ls' ih =>
    cases i with
    | zero =>
      have hget0 : (l :: ls').get ⟨0, hi⟩ = l := rfl
      rw [hget0] at hpre hstrict ⊢
      have hmemnone : ∀ l' ∈ ls', key.isPrefixOf l' = false := by
        intro l' hl'
        rcases List.mem_iff_get.mp hl' with ⟨⟨j, hj⟩, rfl⟩
        have hj1 : j + 1 < (l :: ls').length := by simpa using Nat.succ_lt_succ hj
        have h := hothers (j + 1) hj1 (by omega)
        rwa [List.get_cons_succ] at h
      cases ls' with
      | nil =>
        rw [show joinLines [l] = l from rfl,
          replAux_match_line_last hpre (hlines l (List.mem_cons_self _ _)) hstrict]
        rfl
      | cons l2 ls'' =>
        rw [show joinLines (l :: l2 :: ls'') = l ++ '\n' :: joinLines (l2 :: ls'') from rfl,
          replAux_match_line _ hpre (hlines l (List.mem_cons_self _ _)) hstrict,
          replAux_no_key_line (l2 :: ls'') hk
            (fun l' hl' => hlines l' (List.mem_cons_of_mem _ hl'))
            hmemnone]
        rfl
    | succ j =>
      cases ls' with
      | nil => exact absurd hi (by simp)
      | cons l2 ls'' =>
        have hj : j < (l2 :: ls'').length := by simpa using Nat.lt_of_succ_lt_succ hi
        have hpre2 : key.isPrefixOf ((l2 :: ls'').get ⟨j, hj⟩) = true := by
          rw [← List.get_cons_succ (a := l) (h := hi)]
          exact hpre
        have hstrict2 : (((l2 :: ls'').get ⟨j, hj⟩).drop key.length).any
            (fun c => !isGoSpace c) = true := by
          rw [← List.get_cons_succ (a := l) (h := hi)]
          exact hstrict
        have hothers2 : ∀ j2 (hj2 : j2 < (l2 :: ls'').length), j2 ≠ j →
            key.isPrefixOf ((l2 :: ls'').get ⟨j2, hj2⟩) = false := by
          intro j2 hj2 hne
          have hj1 : j2 + 1 < (l :: l2 :: ls'').length := by simpa using Nat.succ_lt_succ hj2
          have h := hothers (j2 + 1) hj1 (by omega)
          rwa [List.get_cons_succ] at h
        have hl0 : key.isPrefixOf l = false := hothers 0 (by simp) (by omega)
        rw [show joinLines (l :: l2 :: ls'') = l ++ '\n' :: joinLines (l2 :: ls'') from rfl,
          replAux_skip_true _ hk (hlines l (List.mem_cons_self _ _)) hl0,
          ih j hj (fun l' hl' => hlines l' (List.mem_cons_of_mem _ hl')) hpre2 hstrict2 hothers2]
        have hset : (l :: l2 :: ls'').set (j + 1)
            (expand ((l :: l2 :: ls'').get ⟨j + 1, hi⟩) repl) =
            l :: ((l2 :: ls'').set j (expand ((l2 :: ls'').get ⟨j, hj⟩) repl)) := by
          rw [List.get_cons_succ]
          rfl
        rw [hset, joinLines_cons_ne (List.ne_nil_of_length_pos (by simp))]

theorem goQuoteChar_plain {c : Char} (h : 0x20 ≤ c.toNat ∧ c.toNat < 0x7f ∧ c ≠ '"' ∧ c ≠ '\\') :
    goQuoteChar c = [c] := by
  obtain ⟨h1, h2, h3, h4⟩ := h
  unfold goQuoteChar
  rw [if_neg (by tauto), if_pos ⟨h1, h2⟩]

theorem goQuote_plain {a : Str}
    (h : ∀ c ∈ a, 0x20 ≤ c.toNat ∧ c.toNat < 0x7f ∧ c ≠ '"' ∧ c ≠ '\\') :
    goQuote a = '"' :: (a ++ ['"']) := by
  unfold goQuote
  congr 1
  induction a with
  | nil => rfl
  | cons c r ih =>
    rw [List.foldr_cons, goQuoteChar_plain (h c (List.mem_cons_self _ _)),
      ih (fun x hx => h x (List.mem_cons_of_mem _ hx))]
    rfl

theorem joinLines_set_split {ls : List Str} {i : Nat} {x y : Str} (hi : i < ls.length) :
    joinLines (ls.set i (x ++ '\n' :: y)) = joinLines ((ls.set i x).insertIdx (i + 1) y) := by
  induction ls generalizing i with
  | nil => exact absurd hi (by simp)
  | cons l ls' ih =>
    cases i with
    | zero =>
      cases ls' with
      | nil => rfl
      | cons l2 ls'' =>
        show (x ++ '\n' :: y) ++ '\n' :: joinLines (l2 :: ls'') =
          joinLines (x :: y :: l2 :: ls'')
        rw [show joinLines (x :: y :: l2 :: ls'') =
          x ++ '\n' :: joinLines (y :: l2 :: ls'') from rfl,
          show joinLines (y :: l2 :: ls'') = y ++ '\n' :: joinLines (l2 :: ls'') from rfl]
        simp
    | succ j =>
      cases ls' with
      | nil => exact absurd hi (by simp)
      | cons l2 ls'' =>
        have hj : j < (l2 :: ls'').length := by simpa using Nat.lt_of_succ_lt_succ hi
        show joinLines (l :: (l2 :: ls'').set j (x ++ '\n' :: y)) =
          joinLines (l :: ((l2 :: ls'').set j x).insertIdx (j + 1) y)
        rw [joinLines_cons_ne (List.ne_nil_of_length_pos (by simp)),
          joinLines_cons_ne (List.ne_nil_of_length_pos ?hpos), ih hj]
        case hpos =>
          have : (((l2 :: ls'').set j x).insertIdx (j + 1) y).length =
              (l2 :: ls'').length + 1 := by
            rw [List.length_insertIdx _ _ (by have := hj; simp at this ⊢; omega)]
            simp
          omega

theorem replaceAllKey_two_lines {key repl A B : Str}
    (hA : key.isPrefixOf A = true) (hAnl : '\n' ∉ A)
    (hAs : (A.drop key.length).any (fun c => !isGoSpace c) = true)
    (hB : key.isPrefixOf B = true) (hBnl : '\n' ∉ B)
    (hBs : (B.drop key.length).any (fun c => !isGoSpace c) = true)
    (hd : '$' ∉ repl) :
    replaceAllKey key repl (A ++ '\n' :: B) = repl ++ '\n' :: repl := by
  unfold replaceAllKey
  rw [replAux_match_line B hA hAnl hAs, replAux_match_line_last hB hBnl hBs,
    expand_of_no_dollar hd, expand_of_no_dollar hd]

/-- C1 (amended): for every manifest whose lines contain exactly one line
starting with `version:`, that line carrying at least one non-whitespace
character after the colon, and every new version string containing neither
`$` nor a newline, `UpdateChartVersion` with no secondary version succeeds
and returns the manifest with exactly that line replaced by
`version: <new version>` — every other line byte-for-byte identical. -/
theorem UpdateChartVersion_singleVersionLine (ls : List Str) (i : Nat) (v : Str)
    (hi : i < ls.length)
    (hlines : ∀ l ∈ ls, '\n' ∉ l)
    (hpre : vkey.isPrefixOf (ls.get ⟨i, hi⟩) = true)
    (hstrict : ((ls.get ⟨i, hi⟩).drop vkey.length).any (fun c => !isGoSpace c) = true)
    (hothers : ∀ j (hj : j < ls.length), j ≠ i → vkey.isPrefixOf (ls.get ⟨j, hj⟩) = false)
    (hvd : '$' ∉ v) (hvn : '\n' ∉ v) :
    UpdateChartVersion (joinLines ls) v [] =
      .ok (joinLines (ls.set i (("version: ").data ++ v))) := by
  have hpm : patternMatch vkey (joinLines ls) = true :=
    patternMatch_true_of_strict_line ls i hi hlines hpre hstrict
  have hdrepl : '$' ∉ ("version: ").data ++ v := by
    intro hm
    rcases List.mem_append.mp hm with h1 | h2
    · revert h1
      decide
    · exact hvd h2
  unfold UpdateChartVersion
  rw [if_neg (by simp [hpm]), if_neg (by simp)]
  rw [replaceAllKey_single_line ls i (by decide) hi hlines hpre hstrict hothers,
    expand_of_no_dollar hdrepl]

/-- Witness for C1 at a concrete three-line manifest. -/
theorem UpdateChartVersion_singleVersionLine_witness :
    UpdateChartVersion
      (joinLines [("name: foo").data, ("version: 1.0.0").data, ("description: d").data])
      (("2.0.0").data) [] =
      .ok (joinLines ([("name: foo").data, ("version: 1.0.0").data, ("description: d").data].set 1
        (("version: ").data ++ ("2.0.0").data))) :=
  UpdateChartVersion_singleVersionLine _ 1 _ (by decide) (by decide) (by decide) (by decide)
    (by decide) (by decide) (by decide)

/-- Counterexample to C1 as stated: the text `version: 1\nversion: 2`
contains a line matched by `^version:\s*.+$`, yet `ReplaceAll` rewrites
both matching lines, so no single-line replacement accounts for the
output: the claim's frame condition fails. -/
theorem UpdateChartVersion_duplicate_counterexample :
    (∃ l ∈ splitOnNL (("version: 1\nversion: 2").data), lineFullMatch vkey l = true) ∧
    UpdateChartVersion (("version: 1\nversion: 2").data) (("9").data) [] =
      .ok (("version: 9\nversion: 9").data) ∧
    (∀ i, i < (splitOnNL (("version: 1\nversion: 2").data)).length →
      ¬ splitOnNL (("version: 9\nversion: 9").data) =
        (splitOnNL (("version: 1\nversion: 2").data)).set i
          (("version: ").data ++ ("9").data)) := by
  refine ⟨by decide, ?_, by decide⟩
  unfold UpdateChartVersion
  rw [if_neg (by decide), if_neg (by simp)]
  rw [show ("version: 1\nversion: 2").data =
    ("version: 1").data ++ '\n' :: ("version: 2").data by decide]
  rw [replaceAllKey_two_lines (by decide) (by decide) (by decide) (by decide) (by decide)
    (by decide) (by decide)]
  rfl

/-- C6 (amended): for every manifest in which no line begins with
`version:`, `UpdateChartVersion` fails with the "version field not found
in Chart.yaml" error and the file content is left untouched — the
write-back never happens on this path. -/
theorem UpdateChartVersion_missingVersionLine (ls : List Str) (v a : Str)
    (hlines : ∀ l ∈ ls, '\n' ∉ l)
    (hnover : ∀ l ∈ ls, vkey.isPrefixOf l = false) :
    updateChartVersionFile (joinLines ls) v a =
      (joinLines ls, some (("version field not found in Chart.yaml").data)) := by
  have hpm : hasKeyMatch vkey (joinLines ls) true = false :=
    hasKeyMatch_false_of_no_key_line ls true (by decide) hlines hnover
  unfold updateChartVersionFile UpdateChartVersion patternMatch
  rw [if_pos (by simp [hpm])]

/-- Witness for C6 at a concrete manifest without a version line. -/
theorem UpdateChartVersion_missingVersionLine_witness :
    updateChartVersionFile (joinLines [("name: foo").data, ("apiVersion: v2").data])
      (("9").data) [] =
      (joinLines [("name: foo").data, ("apiVersion: v2").data],
       some (("version field not found in Chart.yaml").data)) :=
  UpdateChartVersion_missingVersionLine _ _ _ (by decide) (by decide)

/-- Counterexample to C6 as stated: `version:\nabc` has no line matched by
`^version:\s*.+$` (the `version:` line has no value), yet the whole-text
regex does match — `\s*` consumes the newline and `.+` the next line — so
`UpdateChartVersion` succeeds and rewrites both lines instead of failing. -/
theorem UpdateChartVersion_crossLine_counterexample :
    (∀ l ∈ splitOnNL (("version:\nabc").data), lineFullMatch vkey l = false) ∧
    UpdateChartVersion (("version:\nabc").data) (("9").data) [] =
      .ok (("version: 9").data) := by
  refine ⟨by decide, ?_⟩
  unfold UpdateChartVersion
  rw [if_neg (by decide), if_neg (by simp)]
  unfold replaceAllKey
  rw [show ("version:\nabc").data =
    'v' :: 'e' :: 'r' :: 's' :: 'i' :: 'o' :: 'n' :: ':' :: '\n' :: 'a' :: 'b' :: 'c' :: [] from rfl]
  rw [replAux_cons_match _ (show matchKeyAt vkey
    ('v' :: 'e' :: 'r' :: 's' :: 'i' :: 'o' :: 'n' :: ':' :: '\n' :: 'a' :: 'b' :: 'c' :: []) =
      some 12 by decide)]
  rw [show List.drop 12
    ('v' :: 'e' :: 'r' :: 's' :: 'i' :: 'o' :: 'n' :: ':' :: '\n' :: 'a' :: 'b' :: 'c' :: []) =
    ([] : Str) from rfl, replAux_nil, List.append_nil, expand_of_no_dollar (by decide)]
  rfl

/-- C2 (amended): on a manifest whose lines contain exactly one line
starting with `version:` (with a non-whitespace character after the colon)
and no line starting with `appVersion:`, updating with a new version that
contains a non-whitespace character and neither `$` nor a newline, and a
non-empty secondary value of printable ASCII characters other than `"`,
`\` and `$`, `UpdateChartVersion` rewrites the version line and inserts
exactly one new line `appVersion: "<value>"` immediately after it; all
other lines are unchanged. -/
theorem UpdateChartVersion_insertsAppVersion (ls : List Str) (i : Nat) (v a : Str)
    (hi : i < ls.length)
    (hlines : ∀ l ∈ ls, '\n' ∉ l)
    (hpre : vkey.isPrefixOf (ls.get ⟨i, hi⟩) = true)
    (hstrict : ((ls.get ⟨i, hi⟩).drop vkey.length).any (fun c => !isGoSpace c) = true)
    (hothers : ∀ j (hj : j < ls.length), j ≠ i → vkey.isPrefixOf (ls.get ⟨j, hj⟩) = false)
    (hnoapp : ∀ l ∈ ls, akey.isPrefixOf l = false)
    (hvd : '$' ∉ v) (hvn : '\n' ∉ v)
    (hvs : v.any (fun c => !isGoSpace c) = true)
    (hane : a ≠ []) (had : '$' ∉ a)
    (haq : ∀ c ∈ a, 0x20 ≤ c.toNat ∧ c.toNat < 0x7f ∧ c ≠ '"' ∧ c ≠ '\\') :
    UpdateChartVersion (joinLines ls) v a =
      .ok (joinLines ((ls.set i (("version: ").data ++ v)).insertIdx (i + 1)
        (("appVersion: ").data ++ '"' :: (a ++ ['"'])))) := by
  have hpm : patternMatch vkey (joinLines ls) = true :=
    patternMatch_true_of_strict_line ls i hi hlines hpre hstrict
  have hdrepl1 : '$' ∉ ("version: ").data ++ v := by
    intro hm
    rcases List.mem_append.mp hm with h1 | h2
    · revert h1
      decide
    · exact hvd h2
  have h1 : replaceAllKey vkey (("version: ").data ++ v) (joinLines ls) =
      joinLines (ls.set i (("version: ").data ++ v)) := by
    rw [replaceAllKey_single_line ls i (by decide) hi hlines hpre hstrict hothers,
      expand_of_no_dollar hdrepl1]
  have hlines1 : ∀ l ∈ ls.set i (("version: ").data ++ v), '\n' ∉ l := by
    intro l hl
    rcases List.mem_or_eq_of_mem_set hl with h | rfl
    · exact hlines l h
    · intro hm
      rcases List.mem_append.mp hm with h1 | h2
      · revert h1
        decide
      · exact hvn h2
  have hnoapp1 : ∀ l ∈ ls.set i (("version: ").data ++ v), akey.isPrefixOf l = false := by
    intro l hl
    rcases List.mem_or_eq_of_mem_set hl with h | rfl
    · exact hnoapp l h
    · rfl
  have hpm2 : patternMatch akey (joinLines (ls.set i (("version: ").data ++ v))) = false :=
    hasKeyMatch_false_of_no_key_line _ true (by decide) hlines1 hnoapp1
  have hi1 : i < (ls.set i (("version: ").data ++ v)).length := by simpa using hi
  have hget1 : (ls.set i (("version: ").data ++ v)).get ⟨i, hi1⟩ = ("version: ").data ++ v := by
    rw [List.get_eq_getElem]
    exact List.getElem_set_self _
  have hpre1 : vkey.isPrefixOf ((ls.set i (("version: ").data ++ v)).get ⟨i, hi1⟩) = true := by
    rw [hget1]
    rfl
  have hstrict1 : (((ls.set i (("version: ").data ++ v)).get ⟨i, hi1⟩).drop vkey.length).any
      (fun c => !isGoSpace c) = true := by
    rw [hget1, show ((("version: ").data ++ v).drop vkey.length) = ' ' :: v from rfl,
      List.any_cons, show (!isGoSpace ' ') = false by decide, Bool.false_or]
    exact hvs
  have hothers1 : ∀ j (hj : j < (ls.set i (("version: ").data ++ v)).length), j ≠ i →
      vkey.isPrefixOf ((ls.set i (("version: ").data ++ v)).get ⟨j, hj⟩) = false := by
    intro j hj hne
    have hj' : j < ls.length := by simpa using hj
    rw [List.get_eq_getElem, List.getElem_set_ne (Ne.symm hne)]
    have h := hothers j hj' hne
    rwa [List.get_eq_getElem] at h
  have hgq : goQuote a = '"' :: (a ++ ['"']) := goQuote_plain haq
  have hdrepl2 : '$' ∉ (("version: ").data ++ v) ++
      '\n' :: (("appVersion: ").data ++ goQuote a) := by
    rw [hgq]
    intro hm
    rcases List.mem_append.mp hm with h | h
    · rcases List.mem_append.mp h with h | h
      · revert h
        decide
      · exact hvd h
    · rcases List.mem_cons.mp h with h | h
      · revert h
        decide
      · rcases List.mem_append.mp h with h | h
        · revert h
          decide
        · rcases List.mem_cons.mp h with h | h
          · revert h
            decide
          · rcases List.mem_append.mp h with h | h
            · exact had h
            · revert h
              decide
  have h2 : replaceAllKey vkey
      ((("version: ").data ++ v) ++ '\n' :: (("appVersion: ").data ++ goQuote a))
      (joinLines (ls.set i (("version: ").data ++ v))) =
      joinLines ((ls.set i (("version: ").data ++ v)).set i
        ((("version: ").data ++ v) ++ '\n' :: (("appVersion: ").data ++ goQuote a))) := by
    rw [replaceAllKey_single_line _ i (by decide) hi1 hlines1 hpre1 hstrict1 hothers1,
      expand_of_no_dollar hdrepl2]
  unfold UpdateChartVersion
  rw [if_neg (by simp [hpm]), if_pos hane, h1, if_neg (by rw [hpm2]; simp), h2, List.set_set,
    hgq, joinLines_set_split hi]

/-- Witness for C2 at a concrete three-line manifest. -/
theorem UpdateChartVersion_insertsAppVersion_witness :
    UpdateChartVersion
      (joinLines [("name: foo").data, ("version: 1.0.0").data, ("description: d").data])
      (("2.0.0").data) (("3.0.0").data) =
      .ok (joinLines (([("name: foo").data, ("version: 1.0.0").data, ("description: d").data].set 1
        (("version: ").data ++ ("2.0.0").data)).insertIdx 2
        (("appVersion: ").data ++ '"' :: ((("3.0.0").data) ++ ['"'])))) :=
  UpdateChartVersion_insertsAppVersion _ 1 _ _ (by decide) (by decide) (by decide) (by decide)
    (by decide) (by decide) (by decide) (by decide) (by decide) (by decide) (by decide)
    (by decide)

/-- Counterexample to C2 as stated: `version: 1\nversion: 2` has a
`version:` line and no `appVersion:` line, yet the insertion rewrite fires
on both version lines and adds two `appVersion` lines, not one. -/
theorem UpdateChartVersion_doubleInsert_counterexample :
    (∃ l ∈ splitOnNL (("version: 1\nversion: 2").data), lineFullMatch vkey l = true) ∧
    (∀ l ∈ splitOnNL (("version: 1\nversion: 2").data), lineFullMatch akey l = false) ∧
    UpdateChartVersion (("version: 1\nversion: 2").data) (("3").data) (("9").data) =
      .ok (("version: 3\nappVersion: \"9\"\nversion: 3\nappVersion: \"9\"").data) ∧
    (∀ i, i < (splitOnNL (("version: 1\nversion: 2").data)).length →
      ¬ splitOnNL (("version: 3\nappVersion: \"9\"\nversion: 3\nappVersion: \"9\"").data) =
        ((splitOnNL (("version: 1\nversion: 2").data)).set i
          (("version: ").data ++ ("3").data)).insertIdx (i + 1)
          (("appVersion: \"9\"").data)) := by
  refine ⟨by decide, by decide, ?_, by decide⟩
  unfold UpdateChartVersion
  rw [if_neg (by decide), if_pos (by simp)]
  rw [show ("version: 1\nversion: 2").data =
    ("version: 1").data ++ '\n' :: ("version: 2").data by decide]
  rw [replaceAllKey_two_lines (by decide) (by decide) (by decide) (by decide) (by decide)
    (by decide) (by decide)]
  rw [if_neg (by decide)]
  rw [replaceAllKey_two_lines (by decide) (by decide) (by decide) (by decide) (by decide)
    (by decide) (by decide)]
  rfl

end PluginHelm
